import Mathlib

/-!
Verification of the corpus synchronization and navigation-generation engine of
`rustforhaters` (`process_transcript.py` and `sync_docs.py`).

The Python sources are shallowly embedded below.  Strings are modelled by
`String` (manipulated through their `List Char` data so that every definition
is structural and kernel-reducible); the documentation tree is modelled by the
inductive `Dir`; the filesystem side effects of each operation are modelled by
explicit state passing.  Character classes (`\w`, `\s`, `str.lower`,
`str.title`) are modelled at ASCII scope, which covers the corpus contents.
-/

/-! ### Basic character and string helpers (Python semantics, ASCII scope) -/

/-- Python `\s` (ASCII scope): space, tab, newline, carriage return, vertical tab, form feed. -/
def pySpace (c : Char) : Bool :=
  c = ' ' || c = '\t' || c = '\n' || c = '\r' || c = '\x0b' || c = '\x0c'

/-- Python `\w` (ASCII scope): letters, digits, underscore. -/
def pyWordChar (c : Char) : Bool :=
  c.isAlphanum || c = '_'

/-- Does `pat` occur at the start of `s`?  (List-level `str.startswith`.) -/
def startsList (pat s : List Char) : Bool :=
  match pat, s with
  | [], _ => true
  | _ :: _, [] => false
  | p :: ps, c :: cs => p = c && startsList ps cs

/-- Does `pat` occur anywhere inside `s`?  (List-level Python `in`.) -/
def infixList (pat : List Char) : List Char → Bool
  | [] => pat.isEmpty
  | c :: rest => startsList pat (c :: rest) || infixList pat rest

/-- Does `pat` occur at the end of `s`?  (List-level `str.endswith`.) -/
def endsList (pat s : List Char) : Bool :=
  startsList pat.reverse s.reverse

/-- Python `str.startswith` on strings. -/
def pyStartsWith (s pat : String) : Bool :=
  startsList pat.data s.data

/-- Python `str.endswith` on strings. -/
def pyEndsWith (s pat : String) : Bool :=
  endsList pat.data s.data

/-- Python substring containment `pat in s`. -/
def pyContains (s pat : String) : Bool :=
  infixList pat.data s.data

/-- Python slicing `s[:-n]`: drop the last `n` characters. -/
def pyDropRight (s : String) (n : Nat) : String :=
  String.mk (s.data.take (s.data.length - n))

/-- Python `str.strip()` at list level: drop ASCII whitespace from both ends. -/
def stripSpaces (l : List Char) : List Char :=
  ((l.dropWhile pySpace).reverse.dropWhile pySpace).reverse

/-- Python `content.split('\n')` at list level. -/
def splitLines : List Char → List (List Char)
  | [] => [[]]
  | c :: rest =>
    if c = '\n' then [] :: splitLines rest
    else
      match splitLines rest with
      | [] => [[c]]
      | l :: ls => (c :: l) :: ls

/-- Python `str.title()` (ASCII scope): uppercase every letter that follows a
non-letter, lowercase every other letter. -/
def titleAux : Bool → List Char → List Char
  | _, [] => []
  | prev, c :: t =>
    if c.isAlpha then (if prev then c.toLower else c.toUpper) :: titleAux true t
    else c :: titleAux false t

/-- Python `str.title()` on a character list. -/
def pyTitle (l : List Char) : List Char := titleAux false l

/-- Python `pathlib.Path.suffix`: the final `.ext` component of a file name,
empty when there is no dot, when the dot is the first character (hidden file),
or when the dot is the last character. -/
def pySuffix (s : String) : String :=
  let r := s.data.reverse
  let afterRev := r.takeWhile (fun c => !(c = '.'))
  if afterRev.length = r.length then ""
  else if afterRev.length = 0 then ""
  else if afterRev.length + 1 = r.length then ""
  else String.mk ('.' :: afterRev.reverse)

/-- Python `pathlib.Path.stem`: the file name without its `pySuffix`. -/
def pyStem (s : String) : String :=
  pyDropRight s (pySuffix s).length

/-- Python `filename.rsplit('.', 1)[0]`: everything before the last dot, or
the whole string when there is no dot. -/
def pyRsplitStem (s : String) : String :=
  if s.data.contains '.' then
    String.mk ((s.data.reverse.dropWhile (fun c => !(c = '.'))).tail.reverse)
  else s

/-! ### A structural insertion sort (model of Python `sorted`, which is stable) -/

/-- Lexicographic comparison of character lists by code point, the order Python
uses for `str`. -/
def listLe : List Char → List Char → Bool
  | [], _ => true
  | _ :: _, [] => false
  | a :: as, b :: bs =>
    if a < b then true
    else if b < a then false
    else listLe as bs

/-- Python string comparison `a <= b`. -/
def strLe (a b : String) : Bool := listLe a.data b.data

/-- Insert into a sorted list, before the first element it is `le`-below-or-equal
(the stable position). -/
def insertB (le : α → α → Bool) (a : α) : List α → List α
  | [] => [a]
  | b :: t => if le a b then a :: b :: t else b :: insertB le a t

/-- Stable insertion sort, modelling Python `sorted`. -/
def sortB (le : α → α → Bool) : List α → List α
  | [] => []
  | a :: t => insertB le a (sortB le t)

/-! ### Filename normalization: `save_document`, `process_transcript.py` lines 181-183.

```
filename = re.sub(r'[^\w\s-]', '', title.lower())
filename = re.sub(r'[-\s]+', '-', filename).strip('-')
filename = f"(filename).md"
```
-/

/-- A character the second `re.sub` treats as a separator: `[-\s]`. -/
def sepChar (c : Char) : Bool := pySpace c || c = '-'

/-- Replace every maximal run of separator characters with a single hyphen
(the effect of `re.sub(r'[-\s]+', '-', _)`).  The flag records whether the
previous character belonged to a separator run. -/
def collapseAux : Bool → List Char → List Char
  | _, [] => []
  | inSep, c :: rest =>
    if sepChar c then
      if inSep then collapseAux true rest
      else '-' :: collapseAux true rest
    else c :: collapseAux false rest

/-- Collapse separator runs to single hyphens. -/
def collapseSeps (l : List Char) : List Char := collapseAux false l

/-- Python `str.strip('-')` at list level. -/
def trimHyphens (l : List Char) : List Char :=
  ((l.dropWhile (fun c => c = '-')).reverse.dropWhile (fun c => c = '-')).reverse

/-- The normalized character content of a title: lower-case, keep only
word characters, whitespace and hyphens, collapse separator runs to single
hyphens, strip edge hyphens. -/
def normalize_chars (title : String) : List Char :=
  trimHyphens (collapseSeps
    ((title.data.map Char.toLower).filter
      (fun c => pyWordChar c || pySpace c || c = '-')))

/-- Filename generation from a title, `process_transcript.py` lines 181-183. -/
def normalize_filename (title : String) : String :=
  String.mk (normalize_chars title) ++ ".md"

example : normalize_filename "Hello, World! -- Part 2" = "hello-world-part-2.md" := by decide

/-! ### The documentation tree

A `Dir` models a directory: its name, its plain files (name and text content)
and its subdirectories.  Paths produced by the builders are relative to the
`docs` root, exactly as in the Python sources.
-/

/-- A directory in the corpus: name, plain files (name, content), subdirectories. -/
inductive Dir where
  | mk (name : String) (files : List (String × String)) (dirs : List Dir)

/-- The directory's name. -/
def Dir.name : Dir → String
  | .mk n _ _ => n

/-- The directory's plain files as (name, content) pairs. -/
def Dir.files : Dir → List (String × String)
  | .mk _ f _ => f

/-- The directory's subdirectories. -/
def Dir.dirs : Dir → List Dir
  | .mk _ _ ds => ds

/-- One entry of a directory listing: a plain file or a subdirectory. -/
inductive Entry where
  | file (name content : String)
  | dir (d : Dir)

/-- The name of a directory entry. -/
def Entry.name : Entry → String
  | .file n _ => n
  | .dir d => d.name

/-- Order on directory entries used by `sorted(dir.iterdir())`: paths sharing a
parent compare by entry name. -/
def entryLe (a b : Entry) : Bool := strLe a.name b.name

/-- `sorted(d.iterdir())`: every entry of `d`, sorted by name. -/
def Dir.entriesSorted (d : Dir) : List Entry :=
  sortB entryLe (d.files.map (fun fc => Entry.file fc.1 fc.2) ++ d.dirs.map Entry.dir)

/-- Order on subdirectories by name, used by `sorted(folders)`. -/
def dirLe (a b : Dir) : Bool := strLe a.name b.name

/-- `(d / n).exists()`: a file or subdirectory named `n` exists directly in `d`. -/
def Dir.hasEntry (d : Dir) (n : String) : Bool :=
  d.files.any (fun fc => fc.1 = n) || d.dirs.any (fun sub => sub.name = n)

/-- Look up the subdirectory of `d` named `n`.  (Models `d / n` when the code
goes on to iterate it as a directory; globbing a plain file yields nothing.) -/
def Dir.subdir (d : Dir) (n : String) : Option Dir :=
  d.dirs.find? (fun sub => sub.name = n)

/-- `sorted(d.glob("*.md"))`: the markdown files of `d`, sorted by name. -/
def Dir.mdFilesSorted (d : Dir) : List (String × String) :=
  sortB (fun a b => strLe a.1 b.1) (d.files.filter (fun fc => pyEndsWith fc.1 ".md"))

/-- `sorted(d.iterdir())` restricted to plain files, sorted by name (the shape
in which both builders scan for source files). -/
def Dir.filesSorted (d : Dir) : List (String × String) :=
  sortB (fun a b => strLe a.1 b.1) d.files

/-! ### Shared helpers of the two builders (`process_transcript.py` lines 197-264) -/

/-- `get_doc_title`, lines 197-208: first markdown H1 (`^#\s+(.+)$`, multiline,
modelled line by line), stripped; else the file name's stem, hyphens replaced
by spaces, title-cased. -/
def lineH1 : List Char → Option (List Char)
  | '#' :: c :: d :: rest =>
    if pySpace c then some (stripSpaces (c :: d :: rest)) else none
  | _ => none

/-- `get_doc_title` of a file given its name and content. -/
def get_doc_title (name content : String) : String :=
  match (splitLines content.data).findSome? lineH1 with
  | some t => String.mk t
  | none => String.mk (pyTitle ((pyStem name).data.map (fun c => if c = '-' then ' ' else c)))

/-- `prettify_topic_name`, lines 211-219. -/
def prettify_topic_name (topic : String) : String :=
  if topic = "stdlib" then "Standard Library"
  else if topic = "rust-compiler-internals" then "Compiler Internals"
  else String.mk (pyTitle (topic.data.map (fun c => if c = '-' then ' ' else c)))

/-- `SOURCE_EXTENSIONS`, line 223. -/
def SOURCE_EXTENSIONS : List String := [".rs", ".py", ".c", ".cpp", ".go", ".js", ".ts"]

/-- `LANG_MAP`, lines 226-234. -/
def LANG_MAP : List (String × String) :=
  [(".rs", "rust"), (".py", "python"), (".c", "c"), (".cpp", "cpp"),
   (".go", "go"), (".js", "javascript"), (".ts", "typescript")]

/-- `LANG_MAP.get(suffix, '')`. -/
def langOf (suffix : String) : String :=
  ((LANG_MAP.find? (fun kv => kv.1 = suffix)).map Prod.snd).getD ""

/-- `get_source_title`, lines 237-239: the source file's name. -/
def get_source_title (name : String) : String := name

/-- `get_wrapper_name`, lines 242-244: `foo.rs -> foo-src.md`. -/
def get_wrapper_name (name : String) : String :=
  pyStem name ++ "-src.md"

/-- The markdown text `generate_source_wrapper` (lines 247-260) writes for a
source file with the given name and content. -/
def generate_source_wrapper_content (name content : String) : String :=
  "# " ++ name ++ "\n\n```" ++ langOf (pySuffix name) ++ "\n" ++ content ++ "\n```\n"

/-- `IGNORE_FOLDERS`, line 264. -/
def IGNORE_FOLDERS : List String := ["repo", "__pycache__", ".git"]

/-! ### Navigation tree values -/

/-- A navigation entry: a leaf `label: path` or a section `label: [items]`. -/
inductive Nav where
  | leaf (label path : String)
  | sec (label : String) (items : List Nav)

/-! ### Lecture-series navigation (`process_transcript.py` lines 267-329) -/

/-- `build_lecture_series_nav`, lines 267-308. -/
def build_lecture_series_nav (series : Dir) (basePath : String) : List Nav :=
  (if series.hasEntry "index.md" then [Nav.leaf "Overview" (basePath ++ "/index.md")] else [])
  ++ (match series.subdir "lectures" with
      | some ld =>
        let items := ld.mdFilesSorted.map
          (fun fc => Nav.leaf (get_doc_title fc.1 fc.2) (basePath ++ "/lectures/" ++ fc.1))
        if items.isEmpty then [] else [Nav.sec "Lectures" items]
      | none => [])
  ++ (match series.subdir "companions" with
      | some cd =>
        let items := cd.mdFilesSorted.map
          (fun fc => Nav.leaf (get_doc_title fc.1 fc.2) (basePath ++ "/companions/" ++ fc.1))
        if items.isEmpty then [] else [Nav.sec "Companions" items]
      | none => [])
  ++ (match series.subdir "samples" with
      | some sd =>
        let items := (sd.mdFilesSorted.filter (fun fc => !(fc.1 = "index.md"))).map
          (fun fc => Nav.leaf (get_doc_title fc.1 fc.2) (basePath ++ "/samples/" ++ fc.1))
        if items.isEmpty then [] else [Nav.sec "Samples" items]
      | none => [])

/-- `build_lectures_nav`, lines 311-329: one section per valid lecture series,
`none` when there is none. -/
def build_lectures_nav (lectures : Dir) : Option Nav :=
  let series := lectures.entriesSorted.filterMap (fun e =>
    match e with
    | .file _ _ => none
    | .dir s =>
      if s.name ∈ IGNORE_FOLDERS then none
      else if s.hasEntry "index.md" || s.hasEntry "lectures" then
        let items := build_lecture_series_nav s ("lectures/" ++ s.name)
        if items.isEmpty then none
        else some (Nav.sec (prettify_topic_name s.name) items)
      else none)
  if series.isEmpty then none else some (Nav.sec "Lectures" series)

/-! ### The walk shared by both builders (`regenerate_mkdocs_nav` lines 351-361,
`regenerate_index` lines 439-445; the two loops are character-for-character
identical in the source) -/

/-- Top-level documents: plain `.md` files of the docs root other than
`index.md`, paired as (resolved title, file name). -/
def collectTopLevel (es : List Entry) : List (String × String) :=
  es.filterMap (fun e =>
    match e with
    | .file n c =>
      if n = "index.md" then none
      else if pySuffix n = ".md" then some (get_doc_title n c, n) else none
    | .dir _ => none)

/-- The folder filter of the shared walk: keep a subdirectory unless it is
named `index.md` or is one of the `IGNORE_FOLDERS`. -/
def collectFolderFn : Entry → Option Dir
  | .file _ _ => none
  | .dir d =>
    if d.name = "index.md" then none
    else if d.name ∈ IGNORE_FOLDERS then none else some d

/-- Topic folders: subdirectories of the docs root, skipping the name
`index.md` and the `IGNORE_FOLDERS`. -/
def collectFolders (es : List Entry) : List Dir :=
  es.filterMap collectFolderFn

/-! ### Navigation builder (`regenerate_mkdocs_nav`, lines 332-425) -/

/-- The `Overview` entry of a topic section, lines 380-386: `README.md` wins
over `index.md`. -/
def navFolderOverview (d : Dir) : List Nav :=
  if d.hasEntry "README.md" then [Nav.leaf "Overview" (d.name ++ "/README.md")]
  else if d.hasEntry "index.md" then [Nav.leaf "Overview" (d.name ++ "/index.md")]
  else []

/-- The document leaves of a topic section, lines 389-396: sorted markdown
files minus overview files and generated `-src.md` wrappers. -/
def navFolderDocs (d : Dir) : List Nav :=
  d.mdFilesSorted.filterMap (fun fc =>
    if fc.1 = "README.md" || fc.1 = "index.md" then none
    else if pyEndsWith fc.1 "-src.md" then none
    else some (Nav.leaf (get_doc_title fc.1 fc.2) (d.name ++ "/" ++ fc.1)))

/-- The source-file leaves of a topic section, lines 399-406: each recognized
source file, linked to its generated wrapper. -/
def navFolderSources (d : Dir) : List Nav :=
  d.filesSorted.filterMap (fun fc =>
    if pySuffix fc.1 ∈ SOURCE_EXTENSIONS then
      some (Nav.leaf (get_source_title fc.1) (d.name ++ "/" ++ get_wrapper_name fc.1))
    else none)

/-- The wrapper files `generate_source_wrapper` writes while the navigation
builder scans a topic folder (lines 400-403), in scan order. -/
def navWrapperWrites (d : Dir) : List (String × String) :=
  d.filesSorted.filterMap (fun fc =>
    if pySuffix fc.1 ∈ SOURCE_EXTENSIONS then
      some (d.name ++ "/" ++ get_wrapper_name fc.1, generate_source_wrapper_content fc.1 fc.2)
    else none)

/-- All items of a topic section, lines 377-409. -/
def navSectionItems (d : Dir) : List Nav :=
  navFolderOverview d ++ navFolderDocs d
    ++ (if (navFolderSources d).isEmpty then [] else [Nav.sec "Source Files" (navFolderSources d)])

/-- The topic section the navigation builder emits for a folder (lines
376-412), `none` for the `lectures` folder and for folders with no items. -/
def topicSectionOf (d : Dir) : Option (String × List Nav) :=
  if d.name = "lectures" then none
  else
    let items := navSectionItems d
    if items.isEmpty then none else some (prettify_topic_name d.name, items)

/-- One folder's contribution to the navigation list, lines 369-412. -/
def perFolderNav (d : Dir) : List Nav :=
  if d.name = "lectures" then
    match build_lectures_nav d with
    | some n => [n]
    | none => []
  else
    match topicSectionOf d with
    | some s => [Nav.sec s.1 s.2]
    | none => []

/-- The complete `nav` value computed by `regenerate_mkdocs_nav`, lines 346-412. -/
def regenerate_mkdocs_nav_list (docs : Dir) : List Nav :=
  let es := docs.entriesSorted
  [Nav.leaf "Home" "index.md"]
    ++ (collectTopLevel es).map (fun tp => Nav.leaf tp.1 tp.2)
    ++ (sortB dirLe (collectFolders es)).flatMap perFolderNav

/-- The topic sections (name, items) the navigation builder emits, in order. -/
def navTopicSections (docs : Dir) : List (String × List Nav) :=
  (sortB dirLe (collectFolders docs.entriesSorted)).filterMap topicSectionOf

/-! ### Navigation config update (`regenerate_mkdocs_nav`, lines 414-423) -/

/-- Python dict assignment `cfg[k] = v` on an association list: replace the
first binding of `k` in place, else append at the end. -/
def upsert (cfg : List (String × α)) (k : String) (v : α) : List (String × α) :=
  match cfg with
  | [] => [(k, v)]
  | kv :: rest => if kv.1 = k then (k, v) :: rest else kv :: upsert rest k v

/-- Python `k in cfg` for a dict modelled as an association list. -/
def containsKey (cfg : List (String × α)) (k : String) : Bool :=
  cfg.any (fun kv => kv.1 = k)

/-- Python `cfg.get(k)`. -/
def lookupKey : List (String × α) → String → Option α
  | [], _ => none
  | kv :: rest, k => if kv.1 = k then some kv.2 else lookupKey rest k

/-- Apply a sequence of file writes to a store of (path, content) pairs:
each write replaces the content at its path or creates the file. -/
def applyWrites (writes : List (String × String)) (store : List (String × String)) :
    List (String × String) :=
  writes.foldl (fun st pc => upsert st pc.1 pc.2) store

/-- The config mutation of `regenerate_mkdocs_nav`, lines 414-419: set `nav`,
then add the default `exclude_docs` only when the key is absent. -/
def regenerate_mkdocs_nav_config (cfg : List (String × α)) (navVal excludeDefault : α) :
    List (String × α) :=
  let c1 := upsert cfg "nav" navVal
  if containsKey c1 "exclude_docs" then c1 else c1 ++ [("exclude_docs", excludeDefault)]

/-! ### Index builder (`regenerate_index`, lines 428-481) -/

/-- The documents the index lists for a topic folder, lines 464-471:
(resolved title, path), same filter as the navigation builder's. -/
def indexFolderDocs (d : Dir) : List (String × String) :=
  d.mdFilesSorted.filterMap (fun fc =>
    if fc.1 = "README.md" || fc.1 = "index.md" then none
    else if pyEndsWith fc.1 "-src.md" then none
    else some (get_doc_title fc.1 fc.2, d.name ++ "/" ++ fc.1))

/-- The source files the index lists for a topic folder, lines 473-478:
(name, raw path, wrapper path). -/
def indexFolderSources (d : Dir) : List (String × String × String) :=
  d.filesSorted.filterMap (fun fc =>
    if pySuffix fc.1 ∈ SOURCE_EXTENSIONS then
      some (fc.1, d.name ++ "/" ++ fc.1, d.name ++ "/" ++ get_wrapper_name fc.1)
    else none)

/-- The section the index builder emits for a topic folder, lines 460-481:
present only when the folder has at least one listed document or source file. -/
def indexSectionOf (d : Dir) : Option (String × List (String × String) × List (String × String × String)) :=
  let docs := indexFolderDocs d
  let sources := indexFolderSources d
  if docs.isEmpty && sources.isEmpty then none
  else some (prettify_topic_name d.name, docs, sources)

/-- The lecture-series summary entries of the index, lines 447-458:
(display name, optional overview link, lecture count). -/
def collectLectureSeries (lectures : Dir) : List (String × Option String × Nat) :=
  lectures.entriesSorted.filterMap (fun e =>
    match e with
    | .file _ _ => none
    | .dir s =>
      if s.name ∈ IGNORE_FOLDERS then none
      else if s.hasEntry "index.md" || s.hasEntry "lectures" then
        some (prettify_topic_name s.name,
              (if s.hasEntry "index.md" then some ("lectures/" ++ s.name ++ "/index.md") else none),
              (match s.subdir "lectures" with
               | some ld => (ld.files.filter (fun fc => pyEndsWith fc.1 ".md")).length
               | none => 0))
      else none)

/-- A folder's topic section in the index: the `lectures` folder is handled
separately (lines 447-458) and never becomes a topic section. -/
def indexTopicSectionFn (d : Dir) :
    Option (String × List (String × String) × List (String × String × String)) :=
  if d.name = "lectures" then none else indexSectionOf d

/-- The section-collection loop of `regenerate_index`: the `sections` dict of
line 436 is keyed by the prettified section name, and the assignment
`sections[section_name] = ...` of line 481 overwrites in place on a key
collision (Python dicts preserve insertion order and re-assignment keeps the
original position) — exactly `upsert`. -/
def indexSectionsFold :
    List Dir → List (String × List (String × String) × List (String × String × String))
    → List (String × List (String × String) × List (String × String × String))
  | [], secs => secs
  | d :: rest, secs =>
    indexSectionsFold rest
      (match indexTopicSectionFn d with
       | some s => upsert secs s.1 s.2
       | none => secs)

/-- The topic sections the index builder emits, lines 436-481, in the order
`sections.items()` is rendered (line 502): the insertion-ordered dict built
by the folder loop. -/
def indexSections (docs : Dir) :
    List (String × List (String × String) × List (String × String × String)) :=
  indexSectionsFold (collectFolders docs.entriesSorted) []

/-- The full structure `regenerate_index` collects before rendering, lines
434-481: top-level documents, topic sections, lecture series. -/
def regenerate_index_structure (docs : Dir) :
    List (String × String)
    × (List (String × List (String × String) × List (String × String × String)))
    × List (String × Option String × Nat) :=
  let es := docs.entriesSorted
  (collectTopLevel es,
   indexSections docs,
   (collectFolders es).flatMap (fun d =>
     if d.name = "lectures" then collectLectureSeries d else []))

/-! ### Dedup by video id (`process_transcript.py` lines 50-63, 162-194, 614-622)

The corpus seen by `find_existing_document` and `save_document` is modelled as
a list of (path, content) pairs, paths relative to the docs root.
-/

/-- The marker comment `save_document` appends and `find_existing_document`
searches for. -/
def videoMarker (videoId : String) : String :=
  "<!-- VideoId: " ++ videoId ++ " -->"

/-- `find_existing_document`, lines 50-63: the path of the first document whose
content contains the video-id marker. -/
def find_existing_document (videoId : String) : List (String × String) → Option String
  | [] => none
  | e :: rest =>
    if pyContains e.2 (videoMarker videoId) then some e.1
    else find_existing_document videoId rest

/-- `Path.write_text` at an existing path: replace the content stored at `p`. -/
def overwrite_at (corpus : List (String × String)) (p c : String) : List (String × String) :=
  corpus.map (fun e => if e.1 = p then (p, c) else e)

/-- Content lookup at a path. -/
def lookupPath : List (String × String) → String → Option String
  | [], _ => none
  | e :: rest, p => if e.1 = p then some e.2 else lookupPath rest p

/-! #### The collision loop of `save_document`, lines 185-191

```
counter = 1
while filepath.exists():
    filepath = topic_dir / f"(filename[:-3])-(counter).md"
    counter += 1
```

`collision_candidate t f k` is the path tested on the k-th check (`k = 0` is
the initial `topic_dir / filename`).  The unbounded `while` loop is modelled
with fuel `existing.length + 2`; the theorem `c4_collision_loop_total` shows
the loop always exits before the fuel does, so the fuel is invisible.
-/

/-- The k-th candidate path of the collision loop of `save_document`. -/
def collision_candidate (topicDir filename : String) (k : Nat) : String :=
  if k = 0 then topicDir ++ "/" ++ filename
  else topicDir ++ "/" ++ pyDropRight filename 3 ++ "-" ++ Nat.repr k ++ ".md"

/-- The collision loop of `save_document`: try candidates in order until one
is not an existing path. -/
def resolve_aux (existing : List String) (topicDir filename : String) :
    Nat → Nat → String
  | 0, k => collision_candidate topicDir filename k
  | fuel + 1, k =>
    if collision_candidate topicDir filename k ∈ existing then
      resolve_aux existing topicDir filename fuel (k + 1)
    else collision_candidate topicDir filename k

/-- The path `save_document` resolves for a fresh document, lines 185-191. -/
def resolve_collision (existing : List String) (topicDir filename : String) : String :=
  resolve_aux existing topicDir filename (existing.length + 2) 0

/-- `save_document`, lines 162-194: append the video-id marker; overwrite in
place when an existing path is supplied, else place the normalized title into
the topic folder, resolving collisions.  Returns (final path, new corpus). -/
def save_document (corpus : List (String × String)) (topic title content videoId : String)
    (existingPath : Option String) : String × List (String × String) :=
  let content2 := content ++ "\n\n" ++ videoMarker videoId ++ "\n"
  match existingPath with
  | some p => (p, overwrite_at corpus p content2)
  | none =>
    let filename := normalize_filename title
    let path := resolve_collision (corpus.map Prod.fst) topic filename
    (path, corpus ++ [(path, content2)])

/-- Outcome of the dedup decision in `main`. -/
inductive MainOutcome where
  | rejected
  | saved (corpus : List (String × String)) (path : String)

/-- The dedup logic of `main`, lines 614-622 and 643: an existing document with
the same video id is rejected before anything is written unless `--overwrite`
is given, in which case `save_document` overwrites it in place. -/
def process_dedup (corpus : List (String × String)) (videoId : String) (overwrite : Bool)
    (topic title content : String) : MainOutcome :=
  match find_existing_document videoId corpus with
  | some p =>
    if overwrite then
      let r := save_document corpus topic title content videoId (some p)
      .saved r.2 r.1
    else .rejected
  | none =>
    let r := save_document corpus topic title content videoId none
    .saved r.2 r.1

/-! ### `sync_docs.py` embeddings -/

/-! #### The collision loop of `move_and_update_doc`, lines 247-255

```
new_path = topic_dir / filename
counter = 1
while new_path.exists() and new_path != filepath:
    stem = filename.rsplit('.', 1)[0]
    new_path = topic_dir / f"(stem)-(counter).md"
    counter += 1
```
-/

/-- The k-th candidate path of the collision loop of `move_and_update_doc`. -/
def sync_candidate (topicDir filename : String) (k : Nat) : String :=
  if k = 0 then topicDir ++ "/" ++ filename
  else topicDir ++ "/" ++ pyRsplitStem filename ++ "-" ++ Nat.repr k ++ ".md"

/-- The collision loop of `move_and_update_doc`: a candidate is retried while
it exists and is not the document's own current path. -/
def sync_resolve_aux (existing : List String) (origPath topicDir filename : String) :
    Nat → Nat → String
  | 0, k => sync_candidate topicDir filename k
  | fuel + 1, k =>
    let c := sync_candidate topicDir filename k
    if c ∈ existing ∧ ¬(c = origPath) then
      sync_resolve_aux existing origPath topicDir filename fuel (k + 1)
    else c

/-- The path `move_and_update_doc` resolves, lines 247-255. -/
def sync_resolve (existing : List String) (origPath topicDir filename : String) : String :=
  sync_resolve_aux existing origPath topicDir filename (existing.length + 2) 0

/-! #### `delete_doc`, `sync_docs.py` lines 70-99 -/

/-- What the entry checks of `delete_doc` (lines 72-78) decide before any
mutation happens. -/
inductive DeleteEntryAction where
  | exitError
  | unlinkTarget
deriving DecidableEq

/-- The guard of `delete_doc`, lines 72-78: a missing target exits with an
error; a target whose path string does not start with the docs directory's
path string exits with an error; otherwise the file is unlinked. -/
def delete_doc_guard (targetExists : Bool) (filepath docsDir : String) : DeleteEntryAction :=
  if !targetExists then .exitError
  else if !(pyStartsWith filepath docsDir) then .exitError
  else .unlinkTarget

/-- Containment of a path in a directory, as the spec means it: the path is
the directory itself or lies below it past a path separator.  (This is the
property the guard is intended to check.) -/
def insideCorpusRoot (filepath docsDir : String) : Bool :=
  filepath = docsDir || pyStartsWith filepath (docsDir ++ "/")

/-- Result of the empty-folder cascade of `delete_doc`. -/
inductive CascadeResult where
  | kept (remainingFiles : List String)
  | removedFolder
  | oserror
deriving DecidableEq

/-- The cascade of `delete_doc`, lines 84-99, on the parent folder's file
names: unlink the target; when the parent is not the docs root and nothing
but `README.md`, `index.md`, `.DS_Store` remains, delete `README.md` and
`index.md` and remove the folder (`rmdir` raises when anything — such as a
`.DS_Store` — is still present). -/
def delete_doc_cascade (parentFiles : List String) (target : String)
    (parentIsDocsRoot : Bool) : CascadeResult :=
  let files1 := parentFiles.erase target
  if parentIsDocsRoot then .kept files1
  else
    let remaining := files1.filter
      (fun f => !(f = "README.md" || f = "index.md" || f = ".DS_Store"))
    if remaining.isEmpty then
      let files2 := files1.filter (fun f => !(f = "README.md" || f = "index.md"))
      if files2.isEmpty then .removedFolder else .oserror
    else .kept files1

/-! #### Git transport models

Each `subprocess.run(check=True)` call is modelled as an `Except String Unit`:
`.error e` is a raised `CalledProcessError` with diagnostic text `e`.  Each model
returns the printed log lines and `some e` when the function lets an exception
escape to its caller (which makes the run exit non-zero), `none` when it
returns normally.
-/

/-- `git_commit_and_push`, `process_transcript.py` lines 542-578: the `except`
block prints the git error and re-raises, so every transport failure escapes
to `main` and aborts the run. -/
def git_commit_and_push (add commit push : Except String Unit) (relPath : String) :
    List String × Option String :=
  match add with
  | .error e => (["Committing to git...", "Git error: " ++ e], some e)
  | .ok _ =>
    match commit with
    | .error e => (["Committing to git...", "Git error: " ++ e], some e)
    | .ok _ =>
      match push with
      | .error e =>
        (["Committing to git...", "Committed: " ++ relPath, "Git error: " ++ e], some e)
      | .ok _ =>
        (["Committing to git...", "Committed: " ++ relPath, "Pushed to remote."], none)

/-- `git_commit_sync`, `sync_docs.py` lines 269-318: the `except` block prints
the git error and returns normally, so no transport failure ever escapes —
the run continues and exits zero. -/
def git_committed_sync_msg (commitMsg : String) : String := "Committed: " ++ commitMsg

/-- `git_commit_sync`, `sync_docs.py` lines 269-318. -/
def git_commit_sync (add : Except String Unit) (hasStagedChanges : Bool)
    (commit push : Except String Unit) (commitMsg : String) :
    List String × Option String :=
  match add with
  | .error e => (["Committing changes...", "Git error: " ++ e], none)
  | .ok _ =>
    if !hasStagedChanges then (["Committing changes...", "No changes to commit."], none)
    else
      match commit with
      | .error e => (["Committing changes...", "Git error: " ++ e], none)
      | .ok _ =>
        match push with
        | .error e =>
          (["Committing changes...", git_committed_sync_msg commitMsg, "Git error: " ++ e], none)
        | .ok _ =>
          (["Committing changes...", git_committed_sync_msg commitMsg, "Pushed to remote."], none)

/-! ### Decimal rendering of the loop counter

`f"...-(counter)..."` renders the counter with `Nat.repr`-style decimal
digits.  The loop's termination rests on distinct counters rendering to
distinct strings, proved here.
-/

/-- The decimal digit characters of `n`, most significant first (the list
underlying `Nat.repr`). -/
def decDigits (n : Nat) : List Char :=
  if h : n < 10 then [Nat.digitChar n]
  else decDigits (n / 10) ++ [Nat.digitChar (n % 10)]
decreasing_by exact Nat.div_lt_self (by omega) (by omega)

lemma decDigits_lt {n : Nat} (h : n < 10) : decDigits n = [Nat.digitChar n] := by
  rw [decDigits]
  simp [h]

lemma decDigits_ge {n : Nat} (h : ¬ n < 10) : decDigits n = decDigits (n / 10) ++ [Nat.digitChar (n % 10)] := by
  rw [decDigits]
  simp [h]

lemma decDigits_ne_nil (n : Nat) : decDigits n ≠ [] := by
  by_cases h : n < 10
  · rw [decDigits_lt h]; simp
  · rw [decDigits_ge h]; simp

lemma toDigitsCore_eq_decDigits :
    ∀ (fuel n : Nat) (ds : List Char), n < fuel →
      Nat.toDigitsCore 10 fuel n ds = decDigits n ++ ds := by
  intro fuel
  induction fuel with
  | zero => intro n ds h; omega
  | succ fl ih =>
    intro n ds h
    by_cases h0 : n / 10 = 0
    · have hn : n < 10 := by omega
      simp only [Nat.toDigitsCore, h0, if_true, decDigits_lt hn, Nat.mod_eq_of_lt hn]
      simp
    · have hn : ¬ n < 10 := by omega
      have hlt : n / 10 < fl := by omega
      simp only [Nat.toDigitsCore, h0, if_false, ih (n / 10) _ hlt, decDigits_ge hn]
      simp

lemma repr_eq_decDigits (n : Nat) : Nat.repr n = (decDigits n).asString := by
  show (Nat.toDigits 10 n).asString = _
  unfold Nat.toDigits
  rw [toDigitsCore_eq_decDigits (n + 1) n [] (Nat.lt_succ_self n)]
  simp

lemma digitChar_inj10 : ∀ a < 10, ∀ b < 10, Nat.digitChar a = Nat.digitChar b → a = b := by
  decide

lemma decDigits_inj : ∀ m n : Nat, decDigits m = decDigits n → m = n := by
  intro m
  induction m using Nat.strong_induction_on with
  | _ m ih =>
    intro n h
    by_cases hm : m < 10 <;> by_cases hn : n < 10
    · rw [decDigits_lt hm, decDigits_lt hn] at h
      exact digitChar_inj10 m hm n hn (List.cons.inj h).1
    · rw [decDigits_lt hm, decDigits_ge hn] at h
      have hlen := congrArg List.length h
      simp at hlen
      exact absurd hlen (decDigits_ne_nil _)
    · rw [decDigits_ge hm, decDigits_lt hn] at h
      have hlen := congrArg List.length h
      simp at hlen
      exact absurd hlen (decDigits_ne_nil _)
    · rw [decDigits_ge hm, decDigits_ge hn] at h
      have h2 := congrArg List.reverse h
      simp only [List.reverse_append, List.reverse_cons, List.reverse_nil,
        List.nil_append, List.singleton_append, List.cons.injEq] at h2
      obtain ⟨h3, h4⟩ := h2
      have hmod : m % 10 = n % 10 :=
        digitChar_inj10 _ (Nat.mod_lt _ (by omega)) _ (Nat.mod_lt _ (by omega)) h3
      have hdivs : decDigits (m / 10) = decDigits (n / 10) := by
        have h5 := congrArg List.reverse h4
        simpa using h5
      have hdiv : m / 10 = n / 10 :=
        ih (m / 10) (Nat.div_lt_self (by omega) (by omega)) _ hdivs
      omega

lemma repr_data_inj {m n : Nat} (h : (Nat.repr m).data = (Nat.repr n).data) : m = n := by
  apply decDigits_inj
  have hm := congrArg String.data (repr_eq_decDigits m)
  have hn := congrArg String.data (repr_eq_decDigits n)
  simp only [List.asString] at hm hn
  rw [← hm, ← hn]
  exact h

/-! ### Specification of the collision loops -/

lemma collision_candidate_inj_pos (t f : String) {j k : Nat}
    (hj : 0 < j) (hk : 0 < k) (h : collision_candidate t f j = collision_candidate t f k) :
    j = k := by
  unfold collision_candidate at h
  rw [if_neg (by omega), if_neg (by omega)] at h
  have h2 := congrArg String.data h
  simp only [String.data_append, List.append_assoc, List.append_cancel_left_eq,
    List.append_left_inj] at h2
  exact repr_data_inj h2

lemma exists_free_candidate (ex : List String) (t f : String) :
    ∃ j, j < ex.length + 2 ∧ collision_candidate t f j ∉ ex := by
  by_contra hc
  push_neg at hc
  have hinj : Set.InjOn (collision_candidate t f) ↑(Finset.Icc 1 (ex.length + 1)) := by
    intro a ha b hb hab
    rw [Finset.coe_Icc, Set.mem_Icc] at ha hb
    exact collision_candidate_inj_pos t f (by omega) (by omega) hab
  have hsub : (Finset.Icc 1 (ex.length + 1)).image (collision_candidate t f) ⊆ ex.toFinset := by
    intro s hs
    rcases Finset.mem_image.1 hs with ⟨j, hj, rfl⟩
    rcases Finset.mem_Icc.1 hj with ⟨h1, h2⟩
    exact List.mem_toFinset.2 (hc j (by omega))
  have hcard := Finset.card_le_card hsub
  rw [Finset.card_image_of_injOn hinj, Nat.card_Icc] at hcard
  have hub := ex.toFinset_card_le
  omega

lemma resolve_aux_spec (ex : List String) (t f : String) :
    ∀ (fuel k : Nat), (∃ j, j < fuel ∧ collision_candidate t f (k + j) ∉ ex) →
      ∃ j, j < fuel ∧ resolve_aux ex t f fuel k = collision_candidate t f (k + j)
        ∧ collision_candidate t f (k + j) ∉ ex
        ∧ ∀ i, i < j → collision_candidate t f (k + i) ∈ ex := by
  intro fuel
  induction fuel with
  | zero => rintro k ⟨j, hj, _⟩; omega
  | succ fl ih =>
    rintro k ⟨j, hj, hfree⟩
    by_cases hk : collision_candidate t f k ∈ ex
    · have hj0 : j ≠ 0 := by
        rintro rfl
        exact hfree (by simpa using hk)
      have hfree' : collision_candidate t f ((k + 1) + (j - 1)) ∉ ex := by
        rw [show (k + 1) + (j - 1) = k + j by omega]
        exact hfree
      obtain ⟨j2, hj2, heq, hfree2, hmin⟩ := ih (k + 1) ⟨j - 1, by omega, hfree'⟩
      refine ⟨j2 + 1, by omega, ?_, ?_, ?_⟩
      · rw [show resolve_aux ex t f (fl + 1) k
            = resolve_aux ex t f fl (k + 1) by simp [resolve_aux, hk]]
        rw [heq]
        exact congrArg _ (by omega)
      · rw [show k + (j2 + 1) = (k + 1) + j2 by omega]
        exact hfree2
      · intro i hi
        match i with
        | 0 => simpa using hk
        | i' + 1 =>
          rw [show k + (i' + 1) = (k + 1) + i' by omega]
          exact hmin i' (by omega)
    · refine ⟨0, by omega, ?_, by simpa using hk, by omega⟩
      simp [resolve_aux, hk]

/-- The collision loop of `save_document` exits within its modelled fuel, on
the first candidate that is not an existing path. -/
lemma resolve_collision_spec (existing : List String) (topicDir filename : String) :
    ∃ k, resolve_collision existing topicDir filename = collision_candidate topicDir filename k
      ∧ collision_candidate topicDir filename k ∉ existing
      ∧ ∀ i, i < k → collision_candidate topicDir filename i ∈ existing := by
  obtain ⟨j, hj, hfree⟩ := exists_free_candidate existing topicDir filename
  obtain ⟨k, hk, heq, hfree2, hmin⟩ :=
    resolve_aux_spec existing topicDir filename (existing.length + 2) 0
      ⟨j, hj, by simpa using hfree⟩
  exact ⟨k, by simpa using heq, by simpa using hfree2,
    fun i hi => by simpa using hmin i hi⟩

/-- The resolved path depends only on membership in the existing-path set. -/
lemma resolve_collision_congr (ex1 ex2 : List String) (t f : String)
    (h : ∀ x, x ∈ ex1 ↔ x ∈ ex2) :
    resolve_collision ex1 t f = resolve_collision ex2 t f := by
  obtain ⟨k1, he1, hf1, hm1⟩ := resolve_collision_spec ex1 t f
  obtain ⟨k2, he2, hf2, hm2⟩ := resolve_collision_spec ex2 t f
  have hk : k1 = k2 := by
    by_contra hne
    rcases Nat.lt_or_ge k1 k2 with hlt | hge
    · exact hf1 ((h _).2 (hm2 k1 hlt))
    · exact hf2 ((h _).1 (hm1 k2 (by omega)))
  rw [he1, he2, hk]

/-! ## Claim theorems -/

/-- C7.  The claim says a delete request whose target is outside the corpus
root is rejected with no mutation.  The guard of `delete_doc` compares path
STRINGS with `startswith`, so the existing path `/repo/docs-evil/notes.md`,
which is outside the corpus root `/repo/docs`, passes the guard and the file
is unlinked: the code mutates the filesystem where the claim (and the guard's
own error message) requires rejection.  The missing-target half of the guard
does behave as claimed. -/
theorem c7_outside_root_guard_bug :
    insideCorpusRoot "/repo/docs-evil/notes.md" "/repo/docs" = false
    ∧ delete_doc_guard true "/repo/docs-evil/notes.md" "/repo/docs"
        = DeleteEntryAction.unlinkTarget
    ∧ delete_doc_guard false "/repo/docs-evil/notes.md" "/repo/docs"
        = DeleteEntryAction.exitError := by
  decide

/-- C8 counterexample.  A `git push` transport failure during the commit phase
of the synchronization entry point (`git_commit_sync`) is caught and the
function returns normally — no exception escapes, the run completes and exits
zero — contradicting the claim that every transport failure aborts the run
with a non-zero result in both entry points. -/
theorem c8_counterexample_sync_push_swallowed :
    (git_commit_sync (.ok ()) true (.ok ()) (.error "push failed") "Organize doc: x.md").2 = none
    ∧ "Git error: push failed"
        ∈ (git_commit_sync (.ok ()) true (.ok ()) (.error "push failed") "Organize doc: x.md").1 := by
  constructor
  · rfl
  · simp [git_commit_sync]

/-- C8 amended.  Every transport failure during the commit phase is surfaced
(the git error text is printed).  In the transcript entry point
(`git_commit_and_push`) the exception is re-raised, escapes to `main` and
aborts the run with a non-zero result.  In the synchronization entry point
(`git_commit_sync`) the exception is caught and the function returns
normally, so the run completes with exit code zero. -/
theorem c8_amended_transport_failures (e relPath msg : String) :
    ((git_commit_and_push (.error e) (.ok ()) (.ok ()) relPath).2 = some e
      ∧ "Git error: " ++ e ∈ (git_commit_and_push (.error e) (.ok ()) (.ok ()) relPath).1)
    ∧ ((git_commit_and_push (.ok ()) (.error e) (.ok ()) relPath).2 = some e
      ∧ "Git error: " ++ e ∈ (git_commit_and_push (.ok ()) (.error e) (.ok ()) relPath).1)
    ∧ ((git_commit_and_push (.ok ()) (.ok ()) (.error e) relPath).2 = some e
      ∧ "Git error: " ++ e ∈ (git_commit_and_push (.ok ()) (.ok ()) (.error e) relPath).1)
    ∧ ((git_commit_sync (.error e) true (.ok ()) (.ok ()) msg).2 = none
      ∧ "Git error: " ++ e ∈ (git_commit_sync (.error e) true (.ok ()) (.ok ()) msg).1)
    ∧ ((git_commit_sync (.ok ()) true (.error e) (.ok ()) msg).2 = none
      ∧ "Git error: " ++ e ∈ (git_commit_sync (.ok ()) true (.error e) (.ok ()) msg).1)
    ∧ ((git_commit_sync (.ok ()) true (.ok ()) (.error e) msg).2 = none
      ∧ "Git error: " ++ e ∈ (git_commit_sync (.ok ()) true (.ok ()) (.error e) msg).1) := by
  simp [git_commit_and_push, git_commit_sync]

/-- C4.  The collision loop of `save_document` terminates for every finite
set of existing paths: the resolved path is the first candidate (`filename`,
then `stem-1.md`, `stem-2.md`, ...) that is not among the existing paths, and
in particular is itself not an existing path — path resolution is a total
function of the existing paths. -/
theorem c4_collision_loop_total (existing : List String) (topicDir filename : String) :
    ∃ k, resolve_collision existing topicDir filename = collision_candidate topicDir filename k
      ∧ collision_candidate topicDir filename k ∉ existing
      ∧ ∀ i, i < k → collision_candidate topicDir filename i ∈ existing :=
  resolve_collision_spec existing topicDir filename

/-- C4 witness at a concrete folder state. -/
theorem c4_witness :
    ∃ k, resolve_collision ["memory/foo.md"] "memory" "foo.md"
          = collision_candidate "memory" "foo.md" k
      ∧ collision_candidate "memory" "foo.md" k ∉ ["memory/foo.md"]
      ∧ ∀ i, i < k → collision_candidate "memory" "foo.md" i ∈ ["memory/foo.md"] :=
  c4_collision_loop_total ["memory/foo.md"] "memory" "foo.md"

/-- C3.  With `foo.md` present, placing another document titled "Foo" (whose
normalized filename is `foo.md`) resolves to `foo-1.md`; with `foo-1.md` also
present it resolves to `foo-2.md` — in both the collision loop of
`save_document` and the one of `move_and_update_doc` — and the resolved path
depends only on the set of paths existing in the folder at call time. -/
theorem c3_collision_resolution :
    normalize_filename "Foo" = "foo.md"
    ∧ resolve_collision ["t/foo.md"] "t" "foo.md" = "t/foo-1.md"
    ∧ resolve_collision ["t/foo.md", "t/foo-1.md"] "t" "foo.md" = "t/foo-2.md"
    ∧ sync_resolve ["t/foo.md"] "docs/orig.md" "t" "foo.md" = "t/foo-1.md"
    ∧ sync_resolve ["t/foo.md", "t/foo-1.md"] "docs/orig.md" "t" "foo.md" = "t/foo-2.md"
    ∧ ∀ (ex1 ex2 : List String) (t f : String),
        (∀ x, x ∈ ex1 ↔ x ∈ ex2) → resolve_collision ex1 t f = resolve_collision ex2 t f := by
  refine ⟨by decide, by decide, by decide, by decide, by decide, resolve_collision_congr⟩

/-- C3 witness: the determinism conjunct applied to two listings of the same
path set. -/
theorem c3_witness :
    (∀ x, x ∈ ["t/a.md"] ↔ x ∈ ["t/a.md", "t/a.md"])
    ∧ resolve_collision ["t/a.md"] "t" "a.md"
        = resolve_collision ["t/a.md", "t/a.md"] "t" "a.md" :=
  ⟨fun x => by simp,
   c3_collision_resolution.2.2.2.2.2 ["t/a.md"] ["t/a.md", "t/a.md"] "t" "a.md"
     (fun x => by simp)⟩

/-- C10.  The generated wrapper path depends only on the source file's stem:
`get_wrapper_name` ignores the extension, so `foo.py` and `foo.rs` in the
same topic folder get the same wrapper name `foo-src.md`, both navigation
entries point to the same wrapper path, and of the two wrapper writes the
later one (for `foo.rs`, which sorts after `foo.py`) overwrites the earlier. -/
theorem c10_wrapper_depends_only_on_stem :
    (∀ n1 n2 : String, pyStem n1 = pyStem n2 → get_wrapper_name n1 = get_wrapper_name n2)
    ∧ navFolderSources (Dir.mk "tools" [("foo.py", "print hello"), ("foo.rs", "fn main()")] [])
        = [Nav.leaf "foo.py" "tools/foo-src.md", Nav.leaf "foo.rs" "tools/foo-src.md"]
    ∧ lookupPath
        (applyWrites
          (navWrapperWrites
            (Dir.mk "tools" [("foo.py", "print hello"), ("foo.rs", "fn main()")] [])) [])
        "tools/foo-src.md"
        = some (generate_source_wrapper_content "foo.rs" "fn main()") := by
  refine ⟨fun n1 n2 h => by simp [get_wrapper_name, h], rfl, rfl⟩

/-- C10 witness: two names with the same stem and different recognized
extensions yield the same wrapper name. -/
theorem c10_witness :
    pyStem "foo.rs" = pyStem "foo.py"
    ∧ get_wrapper_name "foo.rs" = get_wrapper_name "foo.py" :=
  ⟨by decide, c10_wrapper_depends_only_on_stem.1 "foo.rs" "foo.py" (by decide)⟩

/-! ### Helper lemmas for the dedup claim -/

lemma overwrite_head_fst (e : String × String) (p c : String) :
    (if e.1 = p then (p, c) else e).1 = e.1 := by
  by_cases h : e.1 = p
  · rw [if_pos h]; exact h.symm
  · rw [if_neg h]

lemma overwrite_at_map_fst (corpus : List (String × String)) (p c : String) :
    (overwrite_at corpus p c).map Prod.fst = corpus.map Prod.fst := by
  induction corpus with
  | nil => rfl
  | cons e rest ih =>
    show (if e.1 = p then (p, c) else e).1 :: (overwrite_at rest p c).map Prod.fst
        = e.1 :: rest.map Prod.fst
    rw [overwrite_head_fst, ih]

lemma find_existing_mem {videoId p : String} :
    ∀ {corpus : List (String × String)},
      find_existing_document videoId corpus = some p → p ∈ corpus.map Prod.fst := by
  intro corpus
  induction corpus with
  | nil => intro h; simp [find_existing_document] at h
  | cons e rest ih =>
    intro h
    by_cases hc : pyContains e.2 (videoMarker videoId) = true
    · simp [find_existing_document, hc] at h
      simp [h]
    · simp [find_existing_document, hc] at h
      simp [ih h]

lemma lookupPath_overwrite_self {p : String} :
    ∀ {corpus : List (String × String)}, p ∈ corpus.map Prod.fst → ∀ c,
      lookupPath (overwrite_at corpus p c) p = some c := by
  intro corpus
  induction corpus with
  | nil => intro hmem; simp at hmem
  | cons e rest ih =>
    intro hmem c
    show lookupPath ((if e.1 = p then (p, c) else e) :: overwrite_at rest p c) p = some c
    by_cases h : e.1 = p
    · rw [if_pos h]
      simp [lookupPath]
    · rw [if_neg h]
      simp only [List.map_cons, List.mem_cons] at hmem
      rcases hmem with h' | h'
      · exact absurd h'.symm h
      · simp only [lookupPath, h, if_false]
        exact ih h' c

lemma lookupPath_overwrite_other {q p : String} (hq : ¬(q = p))
    (corpus : List (String × String)) (c : String) :
    lookupPath (overwrite_at corpus p c) q = lookupPath corpus q := by
  induction corpus with
  | nil => rfl
  | cons e rest ih =>
    show lookupPath ((if e.1 = p then (p, c) else e) :: overwrite_at rest p c) q
        = lookupPath (e :: rest) q
    by_cases h : e.1 = p
    · have hne : ¬(p = q) := fun h' => hq h'.symm
      have heq : ¬(e.1 = q) := fun h' => hne (h.symm.trans h')
      rw [if_pos h]
      simp only [lookupPath, hne, heq, if_false]
      exact ih
    · rw [if_neg h]
      simp only [lookupPath]
      by_cases h2 : e.1 = q <;> simp [h2, ih]

/-- C2.  When a document containing the video-id marker already exists:
without `--overwrite`, `main` rejects the run before any document is written;
with `--overwrite`, `save_document` replaces exactly the existing document's
content at its current path — the set (and order) of paths in the corpus is
unchanged, the marked document's content becomes the new content, every other
path's content is untouched, and no second document is created. -/
theorem c2_dedup_by_identifier (corpus : List (String × String))
    (videoId topic title content p : String)
    (hfind : find_existing_document videoId corpus = some p) :
    process_dedup corpus videoId false topic title content = MainOutcome.rejected
    ∧ process_dedup corpus videoId true topic title content
        = MainOutcome.saved
            (overwrite_at corpus p (content ++ "\n\n" ++ videoMarker videoId ++ "\n")) p
    ∧ (overwrite_at corpus p (content ++ "\n\n" ++ videoMarker videoId ++ "\n")).map Prod.fst
        = corpus.map Prod.fst
    ∧ lookupPath (overwrite_at corpus p (content ++ "\n\n" ++ videoMarker videoId ++ "\n")) p
        = some (content ++ "\n\n" ++ videoMarker videoId ++ "\n")
    ∧ ∀ q, ¬(q = p) →
        lookupPath (overwrite_at corpus p (content ++ "\n\n" ++ videoMarker videoId ++ "\n")) q
          = lookupPath corpus q := by
  refine ⟨?_, ?_, overwrite_at_map_fst corpus p _, ?_, ?_⟩
  · simp [process_dedup, hfind]
  · simp [process_dedup, hfind, save_document]
  · exact lookupPath_overwrite_self (find_existing_mem hfind) _
  · intro q hq
    exact lookupPath_overwrite_other hq corpus _

/-- C2 witness at a one-document corpus. -/
theorem c2_witness :
    find_existing_document "abc123"
        [("memory/x.md", "Body\n\n<!-- VideoId: abc123 -->\n")] = some "memory/x.md"
    ∧ process_dedup [("memory/x.md", "Body\n\n<!-- VideoId: abc123 -->\n")] "abc123" false
        "memory" "New Title" "New body" = MainOutcome.rejected :=
  ⟨by decide,
   (c2_dedup_by_identifier [("memory/x.md", "Body\n\n<!-- VideoId: abc123 -->\n")]
      "abc123" "memory" "New Title" "New body" "memory/x.md" (by decide)).1⟩

/-! ### Helper lemmas for the deletion-cascade claim -/

lemma filter_eq_nil_of_reserved {files : List String} {doc : String}
    (hnd : files.Nodup)
    (hothers : ∀ f ∈ files, ¬(f = doc) → f = "README.md" ∨ f = "index.md")
    (p : String → Bool)
    (hp1 : p "README.md" = false) (hp2 : p "index.md" = false) :
    (files.erase doc).filter p = [] := by
  rw [List.filter_eq_nil_iff]
  intro f hf
  rw [List.Nodup.mem_erase_iff hnd] at hf
  rcases hothers f hf.2 hf.1 with h | h <;> simp [h, hp1, hp2]

/-- C6.  Deleting the sole content document of a topic folder whose only other
entries are the reserved overview files removes the document, the overview
files and the folder itself; deleting one of two content documents removes
only that document and keeps the folder and the other document. -/
theorem c6_deletion_cascade :
    (∀ (files : List String) (doc : String),
        files.Nodup → doc ∈ files →
        ¬(doc = "README.md") → ¬(doc = "index.md") → ¬(doc = ".DS_Store") →
        (∀ f ∈ files, ¬(f = doc) → f = "README.md" ∨ f = "index.md") →
        delete_doc_cascade files doc false = CascadeResult.removedFolder)
    ∧ (∀ (files : List String) (d1 d2 : String),
        ¬(d1 = d2) → d1 ∈ files → d2 ∈ files →
        ¬(d2 = "README.md") → ¬(d2 = "index.md") → ¬(d2 = ".DS_Store") →
        delete_doc_cascade files d1 false = CascadeResult.kept (files.erase d1)
          ∧ d2 ∈ files.erase d1) := by
  constructor
  · intro files doc hnd hmem h1 h2 h3 hothers
    have hrem := filter_eq_nil_of_reserved hnd hothers
      (fun f => !(f = "README.md" || f = "index.md" || f = ".DS_Store")) (by simp) (by simp)
    have hrem2 := filter_eq_nil_of_reserved hnd hothers
      (fun f => !(f = "README.md" || f = "index.md")) (by simp) (by simp)
    have hstep : delete_doc_cascade files doc false
        = (if ((files.erase doc).filter
              (fun f => !(f = "README.md" || f = "index.md" || f = ".DS_Store"))).isEmpty then
            (if ((files.erase doc).filter
                (fun f => !(f = "README.md" || f = "index.md"))).isEmpty then
              CascadeResult.removedFolder
            else CascadeResult.oserror)
          else CascadeResult.kept (files.erase doc)) := rfl
    rw [hstep, hrem, hrem2]
    rfl
  · intro files d1 d2 hne hm1 hm2 hd1 hd2 hd3
    have hmem : d2 ∈ files.erase d1 :=
      (List.mem_erase_of_ne (fun h => hne h.symm)).2 hm2
    refine ⟨?_, hmem⟩
    have hd2f : d2 ∈ (files.erase d1).filter
        (fun f => !(f = "README.md" || f = "index.md" || f = ".DS_Store")) :=
      List.mem_filter.2 ⟨hmem, by simp [hd1, hd2, hd3]⟩
    have hne2 : ¬ (((files.erase d1).filter
        (fun f => !(f = "README.md" || f = "index.md" || f = ".DS_Store"))).isEmpty = true) := by
      intro hemp
      rw [List.isEmpty_iff] at hemp
      rw [hemp] at hd2f
      simp at hd2f
    have hstep : delete_doc_cascade files d1 false
        = (if ((files.erase d1).filter
              (fun f => !(f = "README.md" || f = "index.md" || f = ".DS_Store"))).isEmpty then
            (if ((files.erase d1).filter
                (fun f => !(f = "README.md" || f = "index.md"))).isEmpty then
              CascadeResult.removedFolder
            else CascadeResult.oserror)
          else CascadeResult.kept (files.erase d1)) := rfl
    rw [hstep, if_neg hne2]

/-- C6 witness at concrete folders. -/
theorem c6_witness :
    delete_doc_cascade ["ownership.md", "README.md", "index.md"] "ownership.md" false
        = CascadeResult.removedFolder
    ∧ delete_doc_cascade ["a.md", "b.md", "README.md"] "a.md" false
        = CascadeResult.kept (["a.md", "b.md", "README.md"].erase "a.md")
    ∧ "b.md" ∈ ["a.md", "b.md", "README.md"].erase "a.md" :=
  ⟨c6_deletion_cascade.1 ["ownership.md", "README.md", "index.md"] "ownership.md"
      (by decide) (by decide) (by decide) (by decide) (by decide) (by decide),
   (c6_deletion_cascade.2 ["a.md", "b.md", "README.md"] "a.md" "b.md"
      (by decide) (by decide) (by decide) (by decide) (by decide) (by decide)).1,
   (c6_deletion_cascade.2 ["a.md", "b.md", "README.md"] "a.md" "b.md"
      (by decide) (by decide) (by decide) (by decide) (by decide) (by decide)).2⟩

/-! ### Helper lemmas for the config-frame claim -/

lemma lookupKey_upsert_self (cfg : List (String × α)) (k : String) (v : α) :
    lookupKey (upsert cfg k v) k = some v := by
  induction cfg with
  | nil => simp [upsert, lookupKey]
  | cons kv rest ih =>
    by_cases h : kv.1 = k
    · simp only [upsert, if_pos h]
      simp [lookupKey]
    · simp only [upsert, if_neg h]
      simp only [lookupKey, h, if_false]
      exact ih

lemma lookupKey_upsert_other {q k : String} (h : ¬(q = k)) (cfg : List (String × α)) (v : α) :
    lookupKey (upsert cfg k v) q = lookupKey cfg q := by
  have hkq : ¬(k = q) := fun h' => h h'.symm
  induction cfg with
  | nil => simp [upsert, lookupKey, hkq]
  | cons kv rest ih =>
    by_cases h2 : kv.1 = k
    · have h3 : ¬(kv.1 = q) := fun h' => hkq (h2.symm.trans h')
      simp only [upsert, if_pos h2]
      simp [lookupKey, hkq, h3]
    · simp only [upsert, if_neg h2]
      simp only [lookupKey]
      by_cases h3 : kv.1 = q <;> simp [h3, ih]

lemma containsKey_upsert_other {q k : String} (h : ¬(q = k)) (cfg : List (String × α)) (v : α) :
    containsKey (upsert cfg k v) q = containsKey cfg q := by
  have hkq : ¬(k = q) := fun h' => h h'.symm
  induction cfg with
  | nil => simp [upsert, containsKey, hkq]
  | cons kv rest ih =>
    by_cases h2 : kv.1 = k
    · have h3 : ¬(kv.1 = q) := fun h' => hkq (h2.symm.trans h')
      simp only [upsert, if_pos h2]
      simp [containsKey, hkq, h3]
    · simp only [upsert, if_neg h2]
      simp only [containsKey, List.any_cons] at ih ⊢
      rw [ih]

lemma lookupKey_append_single (cfg : List (String × α)) (kv : String × α) (q : String) :
    lookupKey (cfg ++ [kv]) q
      = (match lookupKey cfg q with
         | some v => some v
         | none => if kv.1 = q then some kv.2 else none) := by
  induction cfg with
  | nil => simp [lookupKey]
  | cons e rest ih =>
    by_cases h : e.1 = q <;> simp [lookupKey, h, ih]

lemma lookupKey_none_of_not_contains {cfg : List (String × α)} {q : String}
    (h : containsKey cfg q = false) : lookupKey cfg q = none := by
  induction cfg with
  | nil => rfl
  | cons e rest ih =>
    simp only [containsKey, List.any_cons, Bool.or_eq_false_iff] at h
    have h1 : ¬(e.1 = q) := by
      intro h'
      rw [h'] at h
      simp at h
    simp only [lookupKey, h1, if_false]
    exact ih (by simpa [containsKey] using h.2)

/-- C9.  The config mutation of `regenerate_mkdocs_nav` is frame-preserving:
every top-level key other than `nav` and `exclude_docs` keeps its value;
`nav` is set to the computed tree; an existing `exclude_docs` value is kept;
the default `exclude_docs` value is added only when the key was absent. -/
theorem c9_nav_config_frame {α : Type} (cfg : List (String × α)) (navVal excl : α) (k : String)
    (hk1 : ¬(k = "nav")) (hk2 : ¬(k = "exclude_docs")) :
    lookupKey (regenerate_mkdocs_nav_config cfg navVal excl) k = lookupKey cfg k
    ∧ lookupKey (regenerate_mkdocs_nav_config cfg navVal excl) "nav" = some navVal
    ∧ (containsKey cfg "exclude_docs" = true →
        lookupKey (regenerate_mkdocs_nav_config cfg navVal excl) "exclude_docs"
          = lookupKey cfg "exclude_docs")
    ∧ (containsKey cfg "exclude_docs" = false →
        lookupKey (regenerate_mkdocs_nav_config cfg navVal excl) "exclude_docs" = some excl) := by
  have hc : containsKey (upsert cfg "nav" navVal) "exclude_docs"
      = containsKey cfg "exclude_docs" :=
    containsKey_upsert_other (by decide) cfg navVal
  have hform : regenerate_mkdocs_nav_config cfg navVal excl
      = (if containsKey (upsert cfg "nav" navVal) "exclude_docs" then
          upsert cfg "nav" navVal
        else upsert cfg "nav" navVal ++ [("exclude_docs", excl)]) := rfl
  rw [hform]
  by_cases hex : containsKey cfg "exclude_docs" = true
  · rw [hc, hex]
    simp only [if_true]
    exact ⟨lookupKey_upsert_other hk1 cfg navVal,
      lookupKey_upsert_self cfg "nav" navVal,
      fun _ => lookupKey_upsert_other (by decide) cfg navVal,
      fun hfalse => absurd hfalse (by simp)⟩
  · have hex' : containsKey cfg "exclude_docs" = false := by simpa using hex
    rw [hc, hex']
    simp only [Bool.false_eq_true, if_false]
    have hnone : lookupKey (upsert cfg "nav" navVal) "exclude_docs" = none :=
      lookupKey_none_of_not_contains (by rw [hc, hex'])
    refine ⟨?_, ?_, ?_, ?_⟩
    · rw [lookupKey_append_single]
      have hother := lookupKey_upsert_other hk1 cfg navVal
      cases hcase : lookupKey (upsert cfg "nav" navVal) k with
      | some v =>
        rw [hcase] at hother
        simpa using hother
      | none =>
        have h2 : ¬(("exclude_docs" : String) = k) := fun h' => hk2 h'.symm
        rw [hcase] at hother
        simpa [h2] using hother
    · simp [lookupKey_append_single, lookupKey_upsert_self]
    · intro htrue
      exact absurd htrue (by simp)
    · intro _
      rw [lookupKey_append_single, hnone]
      simp

/-- C9 witness at a concrete config. -/
theorem c9_witness :
    lookupKey (regenerate_mkdocs_nav_config [("site_name", 0), ("theme", 1)] 2 3) "theme"
      = lookupKey [("site_name", 0), ("theme", 1)] "theme" :=
  (c9_nav_config_frame [("site_name", 0), ("theme", 1)] 2 3 "theme"
    (by decide) (by decide)).1

/-! ### Helper lemmas for the normalization claim -/

lemma sepChar_false_ne_hyphen {c : Char} (h : sepChar c = false) : ¬(c = '-') := by
  intro rfl'
  rw [rfl'] at h
  simp [sepChar] at h

lemma mem_collapseAux : ∀ (b : Bool) (l : List Char) (c : Char),
    c ∈ collapseAux b l → c = '-' ∨ (c ∈ l ∧ sepChar c = false) := by
  intro b l
  induction l generalizing b with
  | nil => intro c hc; simp [collapseAux] at hc
  | cons a t ih =>
    intro c hc
    by_cases ha : sepChar a = true
    · cases b with
      | true =>
        simp only [collapseAux, ha, if_true] at hc
        rcases ih true c hc with h | h
        · exact Or.inl h
        · exact Or.inr ⟨List.mem_cons_of_mem a h.1, h.2⟩
      | false =>
        simp only [collapseAux, ha, if_true] at hc
        rcases List.mem_cons.1 hc with h | h
        · exact Or.inl h
        · rcases ih true c h with h' | h'
          · exact Or.inl h'
          · exact Or.inr ⟨List.mem_cons_of_mem a h'.1, h'.2⟩
    · have ha' : sepChar a = false := by simpa using ha
      simp only [collapseAux, ha', Bool.false_eq_true, if_false] at hc
      rcases List.mem_cons.1 hc with h | h
      · exact Or.inr ⟨by simp [h], h ▸ ha'⟩
      · rcases ih false c h with h' | h'
        · exact Or.inl h'
        · exact Or.inr ⟨List.mem_cons_of_mem a h'.1, h'.2⟩

lemma head_collapseAux_true : ∀ (l : List Char) (c : Char),
    (collapseAux true l).head? = some c → sepChar c = false := by
  intro l
  induction l with
  | nil => intro c hc; simp [collapseAux] at hc
  | cons a t ih =>
    intro c hc
    by_cases ha : sepChar a = true
    · simp only [collapseAux, ha, if_true] at hc
      exact ih c hc
    · have ha' : sepChar a = false := by simpa using ha
      simp only [collapseAux, ha', Bool.false_eq_true, if_false, List.head?_cons,
        Option.some.injEq] at hc
      exact hc ▸ ha'

lemma chain_collapseAux : ∀ (b : Bool) (l : List Char),
    List.Chain' (fun x y => ¬(x = '-' ∧ y = '-')) (collapseAux b l) := by
  intro b l
  induction l generalizing b with
  | nil => simp [collapseAux]
  | cons a t ih =>
    by_cases ha : sepChar a = true
    · cases b with
      | true =>
        simp only [collapseAux, ha, if_true]
        exact ih true
      | false =>
        simp only [collapseAux, ha, if_true]
        refine List.chain'_cons'.2 ⟨?_, ih true⟩
        intro y hy
        intro hand
        exact sepChar_false_ne_hyphen (head_collapseAux_true t y hy) hand.2
    · have ha' : sepChar a = false := by simpa using ha
      simp only [collapseAux, ha', Bool.false_eq_true, if_false]
      refine List.chain'_cons'.2 ⟨?_, ih false⟩
      intro y hy
      intro hand
      exact sepChar_false_ne_hyphen ha' hand.1

lemma chain'_dropWhile {R : α → α → Prop} (p : α → Bool) :
    ∀ l : List α, List.Chain' R l → List.Chain' R (l.dropWhile p) := by
  intro l
  induction l with
  | nil => intro h; exact h
  | cons a t ih =>
    intro h
    by_cases hp : p a = true
    · rw [List.dropWhile_cons_of_pos hp]
      exact ih h.tail
    · rw [List.dropWhile_cons_of_neg hp]
      exact h

lemma head_dropWhile_false (p : α → Bool) :
    ∀ (l : List α) (c : α), ((l.dropWhile p).head? = some c) → p c = false := by
  intro l
  induction l with
  | nil => intro c hc; simp at hc
  | cons a t ih =>
    intro c hc
    by_cases hp : p a = true
    · rw [List.dropWhile_cons_of_pos hp] at hc
      exact ih c hc
    · rw [List.dropWhile_cons_of_neg hp] at hc
      simp at hc
      simpa [hc] using hp

lemma getLast?_dropWhile_of_ne_nil (p : α → Bool) :
    ∀ l : List α, l.dropWhile p ≠ [] → (l.dropWhile p).getLast? = l.getLast? := by
  intro l
  induction l with
  | nil => intro h; exact absurd rfl h
  | cons a t ih =>
    intro h
    by_cases hp : p a = true
    · rw [List.dropWhile_cons_of_pos hp] at h ⊢
      have ht : t ≠ [] := by
        intro rfl'
        rw [rfl'] at h
        exact h rfl
      rw [ih h]
      match t, ht with
      | b :: t', _ => rw [List.getLast?_cons_cons]
    · rw [List.dropWhile_cons_of_neg hp]

lemma mem_trimHyphens {c : Char} {l : List Char} (h : c ∈ trimHyphens l) : c ∈ l := by
  unfold trimHyphens at h
  rw [List.mem_reverse] at h
  have h2 := (List.dropWhile_sublist _).subset h
  rw [List.mem_reverse] at h2
  exact (List.dropWhile_sublist _).subset h2

lemma chain_trimHyphens (l : List Char)
    (h : List.Chain' (fun x y => ¬(x = '-' ∧ y = '-')) l) :
    List.Chain' (fun x y => ¬(x = '-' ∧ y = '-')) (trimHyphens l) := by
  have h1 : List.Chain' (fun x y => ¬(x = '-' ∧ y = '-'))
      (l.dropWhile (fun c => c = '-')) := chain'_dropWhile _ l h
  have h1' : List.Chain' (flip (fun x y : Char => ¬(x = '-' ∧ y = '-')))
      (l.dropWhile (fun c => c = '-')) := by
    refine h1.imp ?_
    intro a b hab hand
    exact hab ⟨hand.2, hand.1⟩
  have h2 : List.Chain' (fun x y : Char => ¬(x = '-' ∧ y = '-'))
      ((l.dropWhile (fun c => c = '-')).reverse) := List.chain'_reverse.2 h1'
  have h3 : List.Chain' (fun x y : Char => ¬(x = '-' ∧ y = '-'))
      (((l.dropWhile (fun c => c = '-')).reverse).dropWhile (fun c => c = '-')) :=
    chain'_dropWhile _ _ h2
  have h3' : List.Chain' (flip (fun x y : Char => ¬(x = '-' ∧ y = '-')))
      (((l.dropWhile (fun c => c = '-')).reverse).dropWhile (fun c => c = '-')) := by
    refine h3.imp ?_
    intro a b hab hand
    exact hab ⟨hand.2, hand.1⟩
  exact List.chain'_reverse.2 h3'

lemma trimHyphens_edges (l : List Char) :
    (trimHyphens l).head? ≠ some '-' ∧ (trimHyphens l).getLast? ≠ some '-' := by
  constructor
  · show ((((l.dropWhile (fun c => c = '-')).reverse.dropWhile
        (fun c => c = '-'))).reverse).head? ≠ some '-'
    rw [List.head?_reverse]
    intro hlast
    by_cases hy : ((l.dropWhile (fun c => c = '-')).reverse.dropWhile (fun c => c = '-')) = []
    · rw [hy] at hlast
      simp at hlast
    · rw [getLast?_dropWhile_of_ne_nil _ _ hy] at hlast
      rw [List.getLast?_reverse] at hlast
      have := head_dropWhile_false (fun c => c = '-') l '-' hlast
      simp at this
  · show ((((l.dropWhile (fun c => c = '-')).reverse.dropWhile
        (fun c => c = '-'))).reverse).getLast? ≠ some '-'
    rw [List.getLast?_reverse]
    intro hh
    have := head_dropWhile_false (fun c => c = '-') _ '-' hh
    simp at this

/-- C5.  Filename normalization: the worked example from the spec holds, the
filename is the normalized character content plus the `.md` extension, and
the normalized content contains only word characters and hyphens, never two
adjacent hyphens, and never a hyphen at either edge. -/
theorem c5_filename_normalization :
    normalize_filename "Hello, World! -- Part 2" = "hello-world-part-2.md"
    ∧ (∀ title : String, normalize_filename title = String.mk (normalize_chars title) ++ ".md")
    ∧ (∀ title : String, ∀ c ∈ normalize_chars title, pyWordChar c = true ∨ c = '-')
    ∧ (∀ title : String,
        (normalize_chars title).head? ≠ some '-' ∧ (normalize_chars title).getLast? ≠ some '-')
    ∧ (∀ title : String,
        List.Chain' (fun x y => ¬(x = '-' ∧ y = '-')) (normalize_chars title)) := by
  refine ⟨by decide, fun _ => rfl, ?_, fun t => trimHyphens_edges _,
    fun t => chain_trimHyphens _ (chain_collapseAux false _)⟩
  intro t c hc
  have hc2 : c ∈ collapseSeps ((t.data.map Char.toLower).filter
      (fun c => pyWordChar c || pySpace c || c = '-')) := mem_trimHyphens hc
  rcases mem_collapseAux false _ c hc2 with h | ⟨hmem, hsep⟩
  · exact Or.inr h
  · have hp := (List.mem_filter.1 hmem).2
    have hsep' : pySpace c = false ∧ ¬(c = '-') := by
      simp only [sepChar, Bool.or_eq_false_iff] at hsep
      exact ⟨hsep.1, by simpa using hsep.2⟩
    simp only [hsep'.1, Bool.or_false, Bool.false_or] at hp
    rcases Bool.or_eq_true_iff.1 hp with h' | h'
    · exact Or.inl h'
    · exact absurd (by simpa using h') hsep'.2

/-- C5 witness for the universally quantified membership conjunct. -/
theorem c5_witness :
    ('h' ∈ normalize_chars "Hello World") ∧ (pyWordChar 'h' = true ∨ 'h' = '-') :=
  ⟨by decide, c5_filename_normalization.2.2.1 "Hello World" 'h' (by decide)⟩

/-! ### Order facts for the model of `sorted` -/

lemma listLe_total : ∀ a b : List Char, listLe a b = true ∨ listLe b a = true := by
  intro a
  induction a with
  | nil => intro b; left; rfl
  | cons x xs ih =>
    intro b
    cases b with
    | nil => right; rfl
    | cons y ys =>
      rcases lt_trichotomy x y with h | h | h
      · left; simp [listLe, h]
      · subst h
        rcases ih ys with h' | h'
        · left; simp [listLe, lt_irrefl, h']
        · right; simp [listLe, lt_irrefl, h']
      · right; simp [listLe, h]

lemma listLe_trans : ∀ a b c : List Char,
    listLe a b = true → listLe b c = true → listLe a c = true := by
  intro a
  induction a with
  | nil => intro b c _ _; rfl
  | cons x xs ih =>
    intro b c hab hbc
    cases b with
    | nil => simp [listLe] at hab
    | cons y ys =>
      cases c with
      | nil => simp [listLe] at hbc
      | cons z zs =>
        rcases lt_trichotomy x y with h1 | h1 | h1
        · rcases lt_trichotomy y z with h2 | h2 | h2
          · simp [listLe, lt_trans h1 h2]
          · subst h2; simp [listLe, h1]
          · simp [listLe, h2, lt_asymm h2] at hbc
        · subst h1
          rcases lt_trichotomy x z with h2 | h2 | h2
          · simp [listLe, h2]
          · subst h2
            simp only [listLe, lt_irrefl, if_false] at hab hbc ⊢
            exact ih ys zs hab hbc
          · simp [listLe, h2, lt_asymm h2] at hbc
        · simp [listLe, h1, lt_asymm h1] at hab

lemma strLe_total (a b : String) : strLe a b = true ∨ strLe b a = true :=
  listLe_total a.data b.data

lemma strLe_trans {a b c : String} (h1 : strLe a b = true) (h2 : strLe b c = true) :
    strLe a c = true :=
  listLe_trans a.data b.data c.data h1 h2

/-! ### Correctness of the insertion sort -/

lemma mem_insertB (le : α → α → Bool) (a x : α) :
    ∀ l : List α, x ∈ insertB le a l ↔ x = a ∨ x ∈ l := by
  intro l
  induction l with
  | nil => simp [insertB]
  | cons b t ih =>
    by_cases h : le a b = true
    · simp [insertB, h]
    · simp [insertB, h, ih]
      tauto

lemma pairwise_insertB (le : α → α → Bool)
    (htotal : ∀ a b, le a b = true ∨ le b a = true)
    (htrans : ∀ a b c, le a b = true → le b c = true → le a c = true)
    (a : α) : ∀ l : List α, l.Pairwise (fun x y => le x y = true) →
      (insertB le a l).Pairwise (fun x y => le x y = true) := by
  intro l
  induction l with
  | nil => intro _; simp [insertB]
  | cons b t ih =>
    intro h
    rcases List.pairwise_cons.1 h with ⟨hb, ht⟩
    by_cases hab : le a b = true
    · rw [show insertB le a (b :: t) = a :: b :: t by simp [insertB, hab]]
      refine List.pairwise_cons.2 ⟨?_, h⟩
      intro y hy
      rcases List.mem_cons.1 hy with rfl | hy'
      · exact hab
      · exact htrans a b y hab (hb y hy')
    · rw [show insertB le a (b :: t) = b :: insertB le a t by simp [insertB, hab]]
      refine List.pairwise_cons.2 ⟨?_, ih ht⟩
      intro y hy
      rcases (mem_insertB le a y t).1 hy with heq | hy'
      · subst heq
        rcases htotal y b with h' | h'
        · exact absurd h' hab
        · exact h'
      · exact hb y hy'

lemma pairwise_sortB (le : α → α → Bool)
    (htotal : ∀ a b, le a b = true ∨ le b a = true)
    (htrans : ∀ a b c, le a b = true → le b c = true → le a c = true) :
    ∀ l : List α, (sortB le l).Pairwise (fun x y => le x y = true) := by
  intro l
  induction l with
  | nil => simp [sortB]
  | cons a t ih => exact pairwise_insertB le htotal htrans a (sortB le t) ih

lemma sortB_eq_self (le : α → α → Bool) :
    ∀ l : List α, l.Pairwise (fun x y => le x y = true) → sortB le l = l := by
  intro l
  induction l with
  | nil => intro _; rfl
  | cons a t ih =>
    intro h
    rcases List.pairwise_cons.1 h with ⟨ha, ht⟩
    show insertB le a (sortB le t) = a :: t
    rw [ih ht]
    cases t with
    | nil => rfl
    | cons b t' =>
      simp [insertB, ha b (List.mem_cons_self b t')]

lemma pairwise_filterMap {R : α → α → Prop} {S : β → β → Prop} (f : α → Option β)
    (hf : ∀ a b x y, R a b → f a = some x → f b = some y → S x y) :
    ∀ l : List α, l.Pairwise R → (l.filterMap f).Pairwise S := by
  intro l
  induction l with
  | nil => intro _; simp
  | cons a t ih =>
    intro h
    rcases List.pairwise_cons.1 h with ⟨ha, ht⟩
    rw [List.filterMap_cons]
    cases hfa : f a with
    | none => exact ih ht
    | some x =>
      refine List.pairwise_cons.2 ⟨?_, ih ht⟩
      intro y hy
      rcases List.mem_filterMap.1 hy with ⟨b, hb, hfb⟩
      exact hf a b x y (ha b hb) hfa hfb

/-! ### Lock-step of navigation builder and index builder -/

lemma entryLe_total (a b : Entry) : entryLe a b = true ∨ entryLe b a = true :=
  strLe_total a.name b.name

lemma entryLe_trans (a b c : Entry) (h1 : entryLe a b = true) (h2 : entryLe b c = true) :
    entryLe a c = true :=
  strLe_trans h1 h2

lemma collectFolderFn_name {e : Entry} {d : Dir} (h : collectFolderFn e = some d) :
    d.name = e.name := by
  cases e with
  | file n c => simp [collectFolderFn] at h
  | dir d' =>
    by_cases h1 : d'.name = "index.md"
    · simp [collectFolderFn, h1] at h
    · by_cases h2 : d'.name ∈ IGNORE_FOLDERS
      · simp [collectFolderFn, h1, h2] at h
      · simp only [collectFolderFn, h1, h2, if_false, Option.some.injEq] at h
        rw [← h]
        rfl

lemma collectFolders_pairwise (es : List Entry)
    (h : es.Pairwise (fun a b => entryLe a b = true)) :
    (collectFolders es).Pairwise (fun a b => dirLe a b = true) := by
  refine pairwise_filterMap collectFolderFn ?_ es h
  intro e1 e2 d1 d2 hR h1 h2
  show strLe d1.name d2.name = true
  rw [collectFolderFn_name h1, collectFolderFn_name h2]
  exact hR

lemma sortB_collectFolders_entriesSorted (docs : Dir) :
    sortB dirLe (collectFolders docs.entriesSorted) = collectFolders docs.entriesSorted := by
  refine sortB_eq_self dirLe _ (collectFolders_pairwise _ ?_)
  exact pairwise_sortB entryLe entryLe_total entryLe_trans _

lemma navFolderDocs_eq_indexFolderDocs (d : Dir) :
    navFolderDocs d = (indexFolderDocs d).map (fun tp => Nav.leaf tp.1 tp.2) := by
  show d.mdFilesSorted.filterMap _ = (d.mdFilesSorted.filterMap _).map _
  generalize d.mdFilesSorted = l
  induction l with
  | nil => rfl
  | cons fc t ih =>
    rw [List.filterMap_cons, List.filterMap_cons]
    by_cases h1 : (fc.1 = "README.md" || fc.1 = "index.md") = true
    · simp only [h1, if_true]
      exact ih
    · by_cases h2 : pyEndsWith fc.1 "-src.md" = true
      · simp only [h1, h2, Bool.false_eq_true, if_false, if_true]
        exact ih
      · simp only [h1, h2, Bool.false_eq_true, if_false, List.map_cons]
        rw [ih]

lemma folderSources_nil_iff (d : Dir) :
    (navFolderSources d = []) ↔ (indexFolderSources d = []) := by
  show d.filesSorted.filterMap _ = [] ↔ d.filesSorted.filterMap _ = []
  generalize d.filesSorted = l
  induction l with
  | nil => simp
  | cons fc t ih =>
    rw [List.filterMap_cons, List.filterMap_cons]
    by_cases h : pySuffix fc.1 ∈ SOURCE_EXTENSIONS
    · simp [h]
    · simp only [h, if_false]
      exact ih

lemma topicSectionOf_eq_some {d : Dir} (hd : ¬(d.name = "lectures"))
    (hcontent : ¬(indexFolderDocs d = []) ∨ ¬(indexFolderSources d = [])) :
    topicSectionOf d = some (prettify_topic_name d.name, navSectionItems d) := by
  have hne : ¬(navSectionItems d = []) := by
    unfold navSectionItems
    rcases hcontent with h | h
    · have hdocs : ¬(navFolderDocs d = []) := by
        rw [navFolderDocs_eq_indexFolderDocs]
        simpa using h
      intro hz
      rcases List.append_eq_nil.1 hz with ⟨hz1, _⟩
      rcases List.append_eq_nil.1 hz1 with ⟨_, hz3⟩
      exact hdocs hz3
    · have hsrc : ¬(navFolderSources d = []) := fun hz => h ((folderSources_nil_iff d).1 hz)
      intro hz
      rcases List.append_eq_nil.1 hz with ⟨_, hz2⟩
      rw [if_neg (by simpa [List.isEmpty_iff] using hsrc)] at hz2
      simp at hz2
  have hstep : topicSectionOf d
      = (if d.name = "lectures" then none
        else if (navSectionItems d).isEmpty then none
        else some (prettify_topic_name d.name, navSectionItems d)) := rfl
  rw [hstep, if_neg hd, if_neg (by simpa [List.isEmpty_iff] using hne)]

lemma indexSectionOf_eq_some {d : Dir}
    (hcontent : ¬(indexFolderDocs d = []) ∨ ¬(indexFolderSources d = [])) :
    indexSectionOf d
      = some (prettify_topic_name d.name, indexFolderDocs d, indexFolderSources d) := by
  have hstep : indexSectionOf d
      = (if (indexFolderDocs d).isEmpty && (indexFolderSources d).isEmpty then none
        else some (prettify_topic_name d.name, indexFolderDocs d, indexFolderSources d)) := rfl
  rw [hstep, if_neg]
  rcases hcontent with h | h <;> simp [List.isEmpty_iff, h]

lemma c1_sections_map_fst (l : List Dir)
    (hl : ∀ d ∈ l, ¬(d.name = "lectures") →
      (¬(indexFolderDocs d = []) ∨ ¬(indexFolderSources d = []))) :
    (l.filterMap topicSectionOf).map Prod.fst
      = (l.filterMap indexTopicSectionFn).map Prod.fst := by
  induction l with
  | nil => rfl
  | cons d t ih =>
    rw [List.filterMap_cons, List.filterMap_cons]
    by_cases hd : d.name = "lectures"
    · have h1 : topicSectionOf d = none := by
        have hstep : topicSectionOf d
            = (if d.name = "lectures" then none
              else if (navSectionItems d).isEmpty then none
              else some (prettify_topic_name d.name, navSectionItems d)) := rfl
        rw [hstep, if_pos hd]
      have h2 : indexTopicSectionFn d = none := by
        unfold indexTopicSectionFn
        rw [if_pos hd]
      rw [h1, h2]
      exact ih (fun d' hd' => hl d' (List.mem_cons_of_mem _ hd'))
    · have hcontent := hl d (List.mem_cons_self _ _) hd
      rw [topicSectionOf_eq_some hd hcontent]
      have h2 : indexTopicSectionFn d
          = some (prettify_topic_name d.name, indexFolderDocs d, indexFolderSources d) := by
        unfold indexTopicSectionFn
        rw [if_neg hd]
        exact indexSectionOf_eq_some hcontent
      rw [h2, List.map_cons, List.map_cons]
      rw [ih (fun d' hd' => hl d' (List.mem_cons_of_mem _ hd'))]

/-! ### The index builder's sections dict with fresh keys -/

lemma upsert_of_not_contains {α : Type} {cfg : List (String × α)} {k : String}
    (h : containsKey cfg k = false) (v : α) : upsert cfg k v = cfg ++ [(k, v)] := by
  induction cfg with
  | nil => rfl
  | cons kv rest ih =>
    simp only [containsKey, List.any_cons, Bool.or_eq_false_iff] at h
    have h1 : ¬(kv.1 = k) := by simpa using h.1
    simp only [upsert, h1, if_false, List.cons_append, List.cons.injEq, true_and]
    exact ih (by simpa [containsKey] using h.2)

lemma containsKey_append_single {α : Type} (cfg : List (String × α)) (kv : String × α)
    (q : String) :
    containsKey (cfg ++ [kv]) q = (containsKey cfg q || kv.1 = q) := by
  simp [containsKey, List.any_append]

lemma indexTopicSectionFn_some {d : Dir}
    {s : String × List (String × String) × List (String × String × String)}
    (h : indexTopicSectionFn d = some s) :
    s.1 = prettify_topic_name d.name ∧ ¬(d.name = "lectures") := by
  by_cases hd : d.name = "lectures"
  · unfold indexTopicSectionFn at h
    rw [if_pos hd] at h
    cases h
  · refine ⟨?_, hd⟩
    unfold indexTopicSectionFn at h
    rw [if_neg hd] at h
    have hstep : indexSectionOf d
        = (if (indexFolderDocs d).isEmpty && (indexFolderSources d).isEmpty then none
          else some (prettify_topic_name d.name, indexFolderDocs d, indexFolderSources d)) := rfl
    rw [hstep] at h
    by_cases hc : ((indexFolderDocs d).isEmpty && (indexFolderSources d).isEmpty) = true
    · rw [if_pos hc] at h
      cases h
    · rw [if_neg hc] at h
      injection h with h2
      rw [← h2]

lemma indexSectionsFold_eq_filterMap :
    ∀ (l : List Dir)
      (acc : List (String × List (String × String) × List (String × String × String))),
      l.Pairwise (fun d1 d2 => ∀ s1 s2, indexTopicSectionFn d1 = some s1 →
        indexTopicSectionFn d2 = some s2 → ¬(s1.1 = s2.1)) →
      (∀ d ∈ l, ∀ s, indexTopicSectionFn d = some s → containsKey acc s.1 = false) →
      indexSectionsFold l acc = acc ++ l.filterMap indexTopicSectionFn := by
  intro l
  induction l with
  | nil => intro acc _ _; simp [indexSectionsFold]
  | cons d rest ih =>
    intro acc hpw hacc
    rcases List.pairwise_cons.1 hpw with ⟨hd, hrest⟩
    cases hfd : indexTopicSectionFn d with
    | none =>
      simp only [indexSectionsFold, hfd]
      rw [List.filterMap_cons, hfd]
      exact ih acc hrest (fun d' hd' => hacc d' (List.mem_cons_of_mem _ hd'))
    | some s =>
      simp only [indexSectionsFold, hfd]
      rw [upsert_of_not_contains (hacc d (List.mem_cons_self _ _) s hfd) s.2]
      rw [ih (acc ++ [(s.1, s.2)]) hrest ?_]
      · rw [List.filterMap_cons, hfd]
        simp [List.append_assoc]
      · intro d' hd' s' hs'
        rw [containsKey_append_single]
        have h1 := hacc d' (List.mem_cons_of_mem _ hd') s' hs'
        have h2 : ¬(s.1 = s'.1) := hd d' hd' s s' hfd hs'
        simp [h1, h2]

lemma lookupKey_filterMap_sections :
    ∀ l : List Dir,
      l.Pairwise (fun d1 d2 => ∀ s1 s2, indexTopicSectionFn d1 = some s1 →
        indexTopicSectionFn d2 = some s2 → ¬(s1.1 = s2.1)) →
      ∀ d ∈ l, ∀ s, indexTopicSectionFn d = some s →
        lookupKey (l.filterMap indexTopicSectionFn) s.1 = some s.2 := by
  intro l
  induction l with
  | nil => intro _ d hd; simp at hd
  | cons a t ih =>
    intro hpw d hd s hs
    rcases List.pairwise_cons.1 hpw with ⟨ha, ht⟩
    rcases List.mem_cons.1 hd with heq | hdt
    · subst heq
      rw [List.filterMap_cons, hs]
      simp [lookupKey]
    · cases hfa : indexTopicSectionFn a with
      | none =>
        rw [List.filterMap_cons, hfa]
        exact ih ht d hdt s hs
      | some sa =>
        rw [List.filterMap_cons, hfa]
        have hne : ¬(sa.1 = s.1) := ha d hdt sa s hfa hs
        simp only [lookupKey, hne, if_false]
        exact ih ht d hdt s hs

/-- C1 counterexample.  Two corpus states refute the claim as stated.
First, a corpus whose only topic folder `alpha` contains nothing but an
overview `README.md`: the navigation builder emits a topic section `Alpha`
(the overview leaf makes the section non-empty) while the index builder,
which requires a listed document or source file, emits no section.  Second,
two folders `Memory` and `memory` whose names prettify to the same display
name: the navigation builder emits two sections, but the index builder's
dict keyed by display name overwrites, emitting a single section that holds
only the later folder's documents — so folder `Memory`'s document never
appears in the index. -/
theorem c1_counterexample_nav_index_divergence :
    ((navTopicSections (Dir.mk "docs" [] [Dir.mk "alpha" [("README.md", "alpha notes")] []])).map
        Prod.fst = ["Alpha"]
      ∧ (indexSections (Dir.mk "docs" [] [Dir.mk "alpha" [("README.md", "alpha notes")] []])).map
        Prod.fst = [])
    ∧ ((navTopicSections (Dir.mk "docs" []
          [Dir.mk "Memory" [("a.md", "A body")] [], Dir.mk "memory" [("b.md", "B body")] []])).map
        Prod.fst = ["Memory", "Memory"]
      ∧ (indexSections (Dir.mk "docs" []
          [Dir.mk "Memory" [("a.md", "A body")] [], Dir.mk "memory" [("b.md", "B body")] []])).map
        Prod.fst = ["Memory"]
      ∧ lookupKey (indexSections (Dir.mk "docs" []
          [Dir.mk "Memory" [("a.md", "A body")] [], Dir.mk "memory" [("b.md", "B body")] []]))
          "Memory" = some ([("B", "memory/b.md")], [])) :=
  ⟨⟨rfl, rfl⟩, rfl, rfl, rfl⟩

/-- C1 amended.  Provided (a) every topic folder other than `lectures`
contains at least one listed document or recognized source file, and (b) the
prettified display names of the topic folders are pairwise distinct, the
topic-section names emitted by the navigation builder and by the index
builder coincide, in the same order; and for every such topic folder the
navigation carries its section while the index dict stores, under the same
display name, exactly that folder's document and source lists — with the
navigation's document leaves equal (as titles and paths, in order) to the
index's document list.  Without (a) an overview-only folder appears in the
navigation only; without (b) the index's dict overwrites one folder's
section with another's. -/
theorem c1_nav_index_agreement (docs : Dir)
    (hcontent : ∀ d ∈ collectFolders docs.entriesSorted, ¬(d.name = "lectures") →
      (¬(indexFolderDocs d = []) ∨ ¬(indexFolderSources d = [])))
    (hnames : (collectFolders docs.entriesSorted).Pairwise
      (fun d1 d2 => ¬(d1.name = "lectures") → ¬(d2.name = "lectures") →
        ¬(prettify_topic_name d1.name = prettify_topic_name d2.name))) :
    (navTopicSections docs).map Prod.fst = (indexSections docs).map Prod.fst
    ∧ ∀ d ∈ collectFolders docs.entriesSorted, ¬(d.name = "lectures") →
        (prettify_topic_name d.name, navSectionItems d) ∈ navTopicSections docs
        ∧ lookupKey (indexSections docs) (prettify_topic_name d.name)
            = some (indexFolderDocs d, indexFolderSources d)
        ∧ navFolderDocs d = (indexFolderDocs d).map (fun tp => Nav.leaf tp.1 tp.2) := by
  have hkd : (collectFolders docs.entriesSorted).Pairwise
      (fun d1 d2 => ∀ s1 s2, indexTopicSectionFn d1 = some s1 →
        indexTopicSectionFn d2 = some s2 → ¬(s1.1 = s2.1)) := by
    refine hnames.imp ?_
    intro d1 d2 h12 s1 s2 h1 h2
    obtain ⟨e1a, e1b⟩ := indexTopicSectionFn_some h1
    obtain ⟨e2a, e2b⟩ := indexTopicSectionFn_some h2
    rw [e1a, e2a]
    exact h12 e1b e2b
  have hsec : indexSections docs
      = (collectFolders docs.entriesSorted).filterMap indexTopicSectionFn := by
    unfold indexSections
    rw [indexSectionsFold_eq_filterMap _ [] hkd (fun d _ s _ => rfl)]
    exact List.nil_append _
  constructor
  · unfold navTopicSections
    rw [sortB_collectFolders_entriesSorted, hsec]
    exact c1_sections_map_fst _ hcontent
  · intro d hd hdl
    have hfd : indexTopicSectionFn d
        = some (prettify_topic_name d.name, indexFolderDocs d, indexFolderSources d) := by
      unfold indexTopicSectionFn
      rw [if_neg hdl]
      exact indexSectionOf_eq_some (hcontent d hd hdl)
    refine ⟨?_, ?_, navFolderDocs_eq_indexFolderDocs d⟩
    · show _ ∈ navTopicSections docs
      unfold navTopicSections
      rw [sortB_collectFolders_entriesSorted]
      exact List.mem_filterMap.2 ⟨d, hd, topicSectionOf_eq_some hdl (hcontent d hd hdl)⟩
    · rw [hsec]
      exact lookupKey_filterMap_sections _ hkd d hd _ hfd

/-- C1 witness at a concrete corpus satisfying both provisos. -/
theorem c1_witness :
    (navTopicSections (Dir.mk "docs" []
        [Dir.mk "memory" [("ownership.md", "# Ownership\nBody")] [],
         Dir.mk "toolchain" [("cargo.md", "# Cargo\nBody")] []])).map Prod.fst
      = (indexSections (Dir.mk "docs" []
        [Dir.mk "memory" [("ownership.md", "# Ownership\nBody")] [],
         Dir.mk "toolchain" [("cargo.md", "# Cargo\nBody")] []])).map Prod.fst
    ∧ ∀ d ∈ collectFolders (Dir.mk "docs" []
        [Dir.mk "memory" [("ownership.md", "# Ownership\nBody")] [],
         Dir.mk "toolchain" [("cargo.md", "# Cargo\nBody")] []]).entriesSorted,
        ¬(d.name = "lectures") →
        (prettify_topic_name d.name, navSectionItems d)
            ∈ navTopicSections (Dir.mk "docs" []
              [Dir.mk "memory" [("ownership.md", "# Ownership\nBody")] [],
               Dir.mk "toolchain" [("cargo.md", "# Cargo\nBody")] []])
        ∧ lookupKey (indexSections (Dir.mk "docs" []
              [Dir.mk "memory" [("ownership.md", "# Ownership\nBody")] [],
               Dir.mk "toolchain" [("cargo.md", "# Cargo\nBody")] []]))
            (prettify_topic_name d.name)
            = some (indexFolderDocs d, indexFolderSources d)
        ∧ navFolderDocs d = (indexFolderDocs d).map (fun tp => Nav.leaf tp.1 tp.2) :=
  c1_nav_index_agreement
    (Dir.mk "docs" []
      [Dir.mk "memory" [("ownership.md", "# Ownership\nBody")] [],
       Dir.mk "toolchain" [("cargo.md", "# Cargo\nBody")] []])
    (by decide) (by decide)
